import Mathlib

/-!
Verification of the analysis engine of `code-tracer-cli` (src/index.js).

The repository is a single-script CLI that parses JavaScript/TypeScript
files with acorn, walks each syntax tree collecting function-size records
and an import tally (`analyzeFiles` / `traverseAst`), and derives graph
diagnostics (circular dependencies, unused files) from the madge module
graph (`checkCircularDependencies` / `detectUnusedFiles`).

The definitions below are a shallow embedding of that script.  File
contents, parse outcomes and the madge result are passed in explicitly
(the script obtains them through the filesystem / the madge library);
everything else follows the source line by line.
-/

set_option maxHeartbeats 1000000

namespace CodeTracer

/-- A function-size record, as pushed by `traverseAst` in src/index.js:
`functionSizes.push({ name, size, file })` (lines 99-103). -/
structure FunctionSizeRecord where
  name : String
  size : Nat
  file : String
deriving DecidableEq, Repr

/-- The two accumulators of `analyzeFiles` (lines 89-90):
`let functionSizes = []` and `let imports = {}`.  The JS object `imports`
is modelled as an insertion-ordered association list from module
specifier to count, exactly how `imports[k] = (imports[k] || 0) + 1`
builds it up. -/
structure Facts where
  functionSizes : List FunctionSizeRecord
  imports : List (String × Nat)
deriving DecidableEq, Repr

/-- Embedding of `imports[k] = (imports[k] || 0) + 1` on the
association-list model:
bump the first entry for `k`, or append a fresh `(k, 1)` entry. -/
def bump (m : List (String × Nat)) (k : String) : List (String × Nat) :=
  match m with
  | [] => [(k, 1)]
  | (k', v) :: rest => if k' = k then (k', v + 1) :: rest else (k', v) :: bump rest k

/-- Embedding of `imports[s] || 0`: the count stored for specifier `s`
(0 if absent). -/
def getCount (m : List (String × Nat)) (s : String) : Nat :=
  match m with
  | [] => 0
  | (k, v) :: rest => if k = s then v else getCount rest s

/-- An acorn syntax node, restricted to the shape `traverseAst` consults.

Only the fields the extractor reads are kept as structured data:
* `node.type` becomes the constructor tag;
* `node.id` (an `Identifier` node or `null`) is flattened to the
  optional identifier name read by `node.id.name`;
* `node.loc.start.line` / `node.loc.end.line` become `startLine` /
  `endLine` (in a well-formed acorn tree `startLine ≤ endLine`);
* `node.source.value` of an import declaration becomes `sourceValue`
  (an import source is always a string literal);
* a call expression keeps its `callee` node and `arguments` array.

Every other object-valued field of the JS node (params, body,
specifiers, the `loc` object, ...) is an uninspected subtree: the
for-in loop of `traverseAst` recurses into all of them in enumeration
order, and none of them matches a condition of the if/else-if chain at
the node itself, so they are gathered into the `children` list.
`identifier` and `literal` nodes have no node-valued fields. -/
inductive Node where
  | identifier (name : String)
  | literal (value : String)
  | functionDeclaration (id : Option String) (startLine endLine : Nat) (children : List Node)
  | functionExpression (id : Option String) (startLine endLine : Nat) (children : List Node)
  | arrowFunctionExpression (startLine endLine : Nat) (children : List Node)
  | importDeclaration (sourceValue : String) (children : List Node)
  | callExpression (callee : Node) (args : List Node) (children : List Node)
  | other (children : List Node)

/-- The object-valued fields `for (let key in node)` recurses into, in
enumeration order.  For a call expression the `callee` field precedes
the `arguments` array in acorn's field order. -/
def childNodes : Node → List Node
  | .identifier _ => []
  | .literal _ => []
  | .functionDeclaration _ _ _ cs => cs
  | .functionExpression _ _ _ cs => cs
  | .arrowFunctionExpression _ _ cs => cs
  | .importDeclaration _ cs => cs
  | .callExpression callee args cs => callee :: (args ++ cs)
  | .other cs => cs

/-- Embedding of `node.callee.name`: defined exactly when the callee is a bare
identifier (acorn gives every other callee shape no `name` property). -/
def calleeName : Node → Option String
  | .identifier name => some name
  | _ => none

/-- Embedding of the test
`node.arguments.length > 0 && node.arguments[0].type === "Literal"`,
returning `node.arguments[0].value` when the test passes. -/
def argLiteral : List Node → Option String
  | .literal v :: _ => some v
  | _ => none

/-- Embedding of `node.id ? node.id.name : "(anonymous)"` (line 100). -/
def idName : Option String → String
  | some n => n
  | none => "(anonymous)"

/-- The if/else-if chain of `traverseAst` (lines 93-114): the action the
walker performs at one node, before recursing into its children.
* function declaration / function expression / arrow function: push
  `{ name: node.id ? node.id.name : "(anonymous)", size: end.line - start.line, file }`;
* import declaration: `imports[node.source.value] += 1`;
* call expression with callee named `require` and a literal first
  argument: `imports[node.arguments[0].value] += 1`;
* everything else: no action. -/
def visit (node : Node) (file : String) (acc : Facts) : Facts :=
  match node with
  | .functionDeclaration id sl el _ =>
      { acc with functionSizes :=
          acc.functionSizes ++ [{ name := idName id, size := el - sl, file := file }] }
  | .functionExpression id sl el _ =>
      { acc with functionSizes :=
          acc.functionSizes ++ [{ name := idName id, size := el - sl, file := file }] }
  | .arrowFunctionExpression sl el _ =>
      { acc with functionSizes :=
          acc.functionSizes ++ [{ name := idName none, size := el - sl, file := file }] }
  | .importDeclaration src _ =>
      { acc with imports := bump acc.imports src }
  | .callExpression callee args _ =>
      if calleeName callee = some "require" then
        match argLiteral args with
        | some v => { acc with imports := bump acc.imports v }
        | none => acc
      else acc
  | _ => acc

theorem sizeOf_list_append (xs ys : List Node) : sizeOf (xs ++ ys) + 1 = sizeOf xs + sizeOf ys := by
  induction xs with
  | nil => simp; omega
  | cons x xs ih =>
    simp only [List.cons_append, List.cons.sizeOf_spec]
    omega

theorem sizeOf_childNodes (n : Node) : sizeOf (childNodes n) ≤ sizeOf n := by
  cases n with
  | callExpression callee args cs =>
    simp only [childNodes, List.cons.sizeOf_spec, Node.callExpression.sizeOf_spec]
    have := sizeOf_list_append args cs
    omega
  | identifier name => simp [childNodes]
  | literal v => simp [childNodes]
  | functionDeclaration id sl el cs => simp [childNodes]
  | functionExpression id sl el cs => simp [childNodes]
  | arrowFunctionExpression sl el cs => simp [childNodes]
  | importDeclaration src cs => simp [childNodes]
  | other cs => simp [childNodes]

/-- The recursive walk of `traverseAst` over a worklist of sibling
nodes: visit the first node (the if/else-if chain), recurse into its
object-valued children in enumeration order (the for-in loop), then
continue with the remaining siblings.  `traverseAst` on one node is the
singleton instance. -/
def traverseMany (nodes : List Node) (file : String) (acc : Facts) : Facts :=
  match nodes with
  | [] => acc
  | n :: rest =>
      traverseMany rest file (traverseMany (childNodes n) file (visit n file acc))
termination_by sizeOf nodes
decreasing_by
  · simp only [List.cons.sizeOf_spec]
    have := sizeOf_childNodes n
    omega
  · simp only [List.cons.sizeOf_spec]
    omega

/-- Embedding of `traverseAst(node, file)` (lines 92-121), acting on the
accumulators. -/
def traverseAst (node : Node) (file : String) (acc : Facts) : Facts :=
  traverseMany [node] file acc

/-- Empty accumulators, as initialised at the top of `analyzeFiles`. -/
def emptyFacts : Facts := { functionSizes := [], imports := [] }

/-- The per-file extraction contract: walk one parsed tree starting from
empty accumulators. -/
def extract (ast : Node) (file : String) : Facts :=
  traverseAst ast file emptyFacts


/-- The function-node data (optional identifier, start line, end line)
a single node contributes: exactly the three function-like node kinds
contribute one entry. -/
def fnInfoOf : Node → List (Option String × Nat × Nat)
  | .functionDeclaration id sl el _ => [(id, sl, el)]
  | .functionExpression id sl el _ => [(id, sl, el)]
  | .arrowFunctionExpression sl el _ => [(none, sl, el)]
  | _ => []

/-- The record `visit` builds from a function-like node's data. -/
def recordOf (file : String) (info : Option String × Nat × Nat) : FunctionSizeRecord :=
  { name := idName info.1, size := info.2.2 - info.2.1, file := file }

/-- Whether a node is one of the three function-like kinds. -/
def isFunctionLike : Node → Bool
  | .functionDeclaration _ _ _ _ => true
  | .functionExpression _ _ _ _ => true
  | .arrowFunctionExpression _ _ _ => true
  | _ => false

/-- All function-node data reachable from a worklist, in visitation
order (a node's own entry, then its children's, then later siblings'). -/
def fnNodesMany (nodes : List Node) : List (Option String × Nat × Nat) :=
  match nodes with
  | [] => []
  | n :: rest => fnInfoOf n ++ (fnNodesMany (childNodes n) ++ fnNodesMany rest)
termination_by sizeOf nodes
decreasing_by
  · simp only [List.cons.sizeOf_spec]
    have := sizeOf_childNodes n
    omega
  · simp only [List.cons.sizeOf_spec]
    omega

/-- The number of reachable function declaration / function expression /
arrow function nodes of a worklist. -/
def countFunctionLikeMany (nodes : List Node) : Nat :=
  match nodes with
  | [] => 0
  | n :: rest =>
      (if isFunctionLike n then 1 else 0)
        + countFunctionLikeMany (childNodes n) + countFunctionLikeMany rest
termination_by sizeOf nodes
decreasing_by
  · simp only [List.cons.sizeOf_spec]
    have := sizeOf_childNodes n
    omega
  · simp only [List.cons.sizeOf_spec]
    omega

/-- The number of reachable function-like nodes of one tree. -/
def countFunctionLike (n : Node) : Nat := countFunctionLikeMany [n]

/-- The tally contribution of a single node to specifier `s`: 1 for a
static import of `s`, 1 for a `require` call whose first argument is
the literal `s`, 0 otherwise. -/
def importTallyOf (s : String) : Node → Nat
  | .importDeclaration src _ => if src = s then 1 else 0
  | .callExpression callee args _ =>
      if calleeName callee = some "require" then
        match argLiteral args with
        | some v => if v = s then 1 else 0
        | none => 0
      else 0
  | _ => 0

/-- The total tally contribution to specifier `s` of all nodes
reachable from a worklist. -/
def importTallyMany (s : String) (nodes : List Node) : Nat :=
  match nodes with
  | [] => 0
  | n :: rest =>
      importTallyOf s n + importTallyMany s (childNodes n) + importTallyMany s rest
termination_by sizeOf nodes
decreasing_by
  · simp only [List.cons.sizeOf_spec]
    have := sizeOf_childNodes n
    omega
  · simp only [List.cons.sizeOf_spec]
    omega

/-- The per-file loop of `analyzeFiles` (lines 123-140).  Each file is
paired with its parse outcome: `fs.readFileSync` + `acorn.parse` either
produce a tree or throw with an error message (both external, so the
outcome is an input here).  A file that parses is walked by
`traverseAst`; a file that throws is skipped and a warning
`(file, error.message)` is recorded, mirroring the `console.warn` in
the catch block. -/
def analyzeFilesAux (files : List (String × Except String Node)) (acc : Facts)
    (warns : List (String × String)) : Facts × List (String × String) :=
  match files with
  | [] => (acc, warns)
  | (file, Except.ok ast) :: rest => analyzeFilesAux rest (traverseAst ast file acc) warns
  | (file, Except.error msg) :: rest => analyzeFilesAux rest acc (warns ++ [(file, msg)])

/-- Embedding of `analyzeFiles(files)` (lines 88-143): the `{ functionSizes, imports }`
result together with the parse warnings printed along the way. -/
def analyzeFiles (files : List (String × Except String Node)) :
    Facts × List (String × String) :=
  analyzeFilesAux files emptyFacts []

/-- Embedding of `detectUnusedFiles` (lines 148-165), success path.  `dependencies`
is the madge edge object (`result.obj()`): an ordered map from each
module file to the list of files it depends on; `allFiles` is the
`getAllFiles` inventory.  The source builds
`importedFiles = new Set(Object.keys(dependencies).map(path.resolve))`
— the KEY set of the edge object — and keeps every inventory file not
in it.  Paths are taken as already resolved: `path.resolve` applied to
madge's relative keys is a fixed renaming, left implicit. -/
def detectUnusedFiles (dependencies : List (String × List String))
    (allFiles : List String) : List String :=
  let importedFiles := dependencies.map Prod.fst
  allFiles.filter (fun file => ! importedFiles.contains file)

/-- Modelled from the spec: the unused-file rule as the spec states it,
"compute the union of all target sets across the edge map, then return
every file in the full inventory whose resolved path is not in that
union".  Declared separately so it can be compared with the source's
`detectUnusedFiles` above. -/
def unusedFilesSpec (dependencies : List (String × List String))
    (allFiles : List String) : List String :=
  let targets := (dependencies.map Prod.snd).flatten
  allFiles.filter (fun file => ! targets.contains file)

/-- The outgoing edge list of `v` in the edge map ([] off the map). -/
def succs (em : List (String × List String)) (v : String) : List String :=
  match em.find? (fun p => p.fst == v) with
  | some p => p.snd
  | none => []

/-- Modelled from the spec: the repository delegates cycle detection to
the external madge library (`result.circular()`, line 178) and contains
no cycle algorithm of its own, so the Dependency Graph Analyzer's
`findCycles` contract is modelled from the spec's words: a depth-first
traversal that follows edges from each node, keeps the current path,
and reports a cycle each time an edge closes back onto the path, with
nodes already fully explored skipped.  `cycleDfs` carries the state
(cycles reported so far, globally visited nodes); the fuel bounds the
recursion depth and `edge-map length + 1` always suffices, since only
keys of the map have successors. -/
def cycleDfs (em : List (String × List String)) :
    Nat → String → List String → List (List String) × List String →
      List (List String) × List String
  | 0, _, _, st => st
  | fuel + 1, v, path, st =>
      let path' := path ++ [v]
      let visited' := if st.snd.contains v then st.snd else st.snd ++ [v]
      (succs em v).foldl
        (fun st' w =>
          if path'.contains w then
            (st'.fst ++ [path'.dropWhile (fun x => x != w) ++ [w]], st'.snd)
          else if st'.snd.contains w then st'
          else cycleDfs em fuel w path' st')
        (st.fst, visited')

/-- Modelled from the spec: `findCycles(edgeMap)` — run the depth-first
search from each key of the edge map in stored order. -/
def findCycles (em : List (String × List String)) : List (List String) :=
  (em.foldl
    (fun st p =>
      if st.snd.contains p.fst then st
      else cycleDfs em (em.length + 1) p.fst [] st)
    ([], [])).fst

/-- Embedding of `checkCircularDependencies` (lines 175-192), with the madge call's
outcome passed in.  On success the madge cycle list is printed
(modelled by `findCycles` on the edge map) and no error message is
emitted; on failure the catch block prints one error message and no
cycle report is produced.  The `Nat` counts the user-visible error
messages of this call. -/
def checkCircularDependencies
    (resolver : Except String (List (String × List String))) :
    List (List String) × Nat :=
  match resolver with
  | Except.ok em => (findCycles em, 0)
  | Except.error _ => ([], 1)

/-- Embedding of `detectUnusedFiles` with its try/catch (lines 148-170): on failure
the catch block prints one error message and returns `[]`. -/
def detectUnusedFilesRun
    (resolver : Except String (List (String × List String)))
    (allFiles : List String) : List String × Nat :=
  match resolver with
  | Except.ok em => (detectUnusedFiles em allFiles, 0)
  | Except.error _ => ([], 1)

/-- The observable outcome of one `displayOverview` run (lines 224-306)
for the analysis engine: extracted facts, the two graph diagnostics,
and how many error messages the graph diagnostics printed. -/
structure RunResult where
  functionSizes : List FunctionSizeRecord
  imports : List (String × Nat)
  cycles : List (List String)
  unused : List String
  graphErrorMessages : Nat
deriving DecidableEq, Repr

/-- Embedding of `displayOverview` (lines 224-306): `analyzeFiles` runs over the
inventory first, then `checkCircularDependencies()` and
`detectUnusedFiles()` are awaited in turn; each performs its own
`madge(projectDir)` call, and both calls see the same resolver outcome
for a given directory. -/
def runPipeline (files : List (String × Except String Node))
    (resolver : Except String (List (String × List String)))
    (inventory : List String) : RunResult :=
  let facts := (analyzeFiles files).fst
  let cyc := checkCircularDependencies resolver
  let unu := detectUnusedFilesRun resolver inventory
  { functionSizes := facts.functionSizes, imports := facts.imports,
    cycles := cyc.fst, unused := unu.fst,
    graphErrorMessages := cyc.snd + unu.snd }

/-- The JS `content.split("\n")` on the character-list model of the
file text: cut the text at every newline character. -/
def splitNL : List Char → List (List Char)
  | [] => [[]]
  | c :: cs =>
      if c = '\n' then [] :: splitNL cs
      else
        match splitNL cs with
        | [] => [[c]]
        | p :: ps => (c :: p) :: ps

/-- Embedding of `countLines(file)` (lines 76-83): `content.split("\n").length` when
the file is readable, 0 when `fs.readFileSync` throws (the read outcome
is an input). -/
def countLines (readResult : Except String (List Char)) : Nat :=
  match readResult with
  | Except.ok content => (splitNL content).length
  | Except.error _ => 0

/-- The large-function filter of `displayOverview` (line 260):
`functionSizes.filter((fn) => fn.size > 50)`, with the hardcoded
50-line cutoff. -/
def largeFunctions (functionSizes : List FunctionSizeRecord) :
    List FunctionSizeRecord :=
  functionSizes.filter (fun fn => decide (50 < fn.size))

/-- A file with two tally contributions for "./a" (one static import
and one literal `require` call) and one for "./b". -/
def exampleImportFile : Node :=
  Node.other
    [Node.importDeclaration "./a" [],
     Node.importDeclaration "./b" [],
     Node.callExpression (Node.identifier "require") [Node.literal "./a"] []]

/-- A `require` call whose first argument is a computed (non-literal)
module path. -/
def exampleComputedRequire : Node :=
  Node.other
    [Node.callExpression (Node.identifier "require") [Node.identifier "moduleName"] []]

/-- The declarator shape of `const foo = () => ...` spanning lines 1-3:
the identifier `foo` and the anonymous arrow function are subtrees of
an uninspected declarator node. -/
def exampleVarArrow : Node :=
  Node.other [Node.identifier "foo", Node.arrowFunctionExpression 1 3 []]

/-- The spec's triangle edge map `A → B → C → A`. -/
def triangleEdgeMap : List (String × List String) :=
  [("A", ["B"]), ("B", ["C"]), ("C", ["A"])]

/-- The spec's unused-file example: edge map `A:[B], B:[]`. -/
def unusedExampleDeps : List (String × List String) :=
  [("A", ["B"]), ("B", [])]


theorem getCount_bump (m : List (String × Nat)) (k s : String) :
    getCount (bump m k) s = getCount m s + (if k = s then 1 else 0) := by
  induction m with
  | nil => simp [bump, getCount]
  | cons p rest ih =>
    obtain ⟨q, v⟩ := p
    by_cases h1 : q = k
    · subst h1
      by_cases h2 : q = s <;> simp [bump, getCount, h2]
    · by_cases h2 : q = s
      · subst h2
        have hks : ¬ (k = q) := fun h => h1 h.symm
        simp [bump, getCount, h1, hks]
      · simp [bump, getCount, h1, h2, ih]

theorem visit_spec (n : Node) (file : String) (acc : Facts) :
    (visit n file acc).functionSizes
        = acc.functionSizes ++ (fnInfoOf n).map (recordOf file)
    ∧ ∀ s, getCount (visit n file acc).imports s
        = getCount acc.imports s + importTallyOf s n := by
  cases n with
  | functionDeclaration id sl el cs => simp [visit, fnInfoOf, recordOf, importTallyOf]
  | functionExpression id sl el cs => simp [visit, fnInfoOf, recordOf, importTallyOf]
  | arrowFunctionExpression sl el cs => simp [visit, fnInfoOf, recordOf, importTallyOf]
  | importDeclaration src cs =>
    refine ⟨by simp [visit, fnInfoOf], fun s => ?_⟩
    simp [visit, importTallyOf, getCount_bump]
  | callExpression callee args cs =>
    refine ⟨?_, fun s => ?_⟩
    · simp only [visit]
      split_ifs with h
      · cases h2 : argLiteral args <;> simp [fnInfoOf]
      · simp [fnInfoOf]
    · simp only [visit, importTallyOf]
      split_ifs with h
      · cases h2 : argLiteral args <;> simp [getCount_bump]
      · simp
  | identifier name => simp [visit, fnInfoOf, importTallyOf]
  | literal v => simp [visit, fnInfoOf, importTallyOf]
  | other cs => simp [visit, fnInfoOf, importTallyOf]
theorem traverseMany_nil (file : String) (acc : Facts) :
    traverseMany [] file acc = acc := by
  rw [traverseMany]

theorem traverseMany_cons (n : Node) (rest : List Node) (file : String) (acc : Facts) :
    traverseMany (n :: rest) file acc
      = traverseMany rest file (traverseMany (childNodes n) file (visit n file acc)) := by
  rw [traverseMany]

theorem fnNodesMany_nil : fnNodesMany [] = [] := by
  rw [fnNodesMany]

theorem fnNodesMany_cons (n : Node) (rest : List Node) :
    fnNodesMany (n :: rest)
      = fnInfoOf n ++ (fnNodesMany (childNodes n) ++ fnNodesMany rest) := by
  rw [fnNodesMany]

theorem countFunctionLikeMany_nil : countFunctionLikeMany [] = 0 := by
  rw [countFunctionLikeMany]

theorem countFunctionLikeMany_cons (n : Node) (rest : List Node) :
    countFunctionLikeMany (n :: rest)
      = (if isFunctionLike n then 1 else 0)
          + countFunctionLikeMany (childNodes n) + countFunctionLikeMany rest := by
  rw [countFunctionLikeMany]

theorem importTallyMany_nil (s : String) : importTallyMany s [] = 0 := by
  rw [importTallyMany]

theorem importTallyMany_cons (s : String) (n : Node) (rest : List Node) :
    importTallyMany s (n :: rest)
      = importTallyOf s n + importTallyMany s (childNodes n) + importTallyMany s rest := by
  rw [importTallyMany]

theorem traverseMany_spec (k : Nat) :
    ∀ (ns : List Node), sizeOf ns ≤ k → ∀ (file : String) (acc : Facts),
      (traverseMany ns file acc).functionSizes
          = acc.functionSizes ++ (fnNodesMany ns).map (recordOf file)
      ∧ ∀ s, getCount (traverseMany ns file acc).imports s
          = getCount acc.imports s + importTallyMany s ns := by
  induction k with
  | zero =>
    intro ns h
    exfalso
    cases ns <;> simp_all
  | succ k ih =>
    intro ns h file acc
    cases ns with
    | nil => simp [traverseMany_nil, fnNodesMany_nil, importTallyMany_nil]
    | cons n rest =>
      have hsz : 1 + sizeOf n + sizeOf rest ≤ k + 1 := by
        simpa using h
      have hrest : sizeOf rest ≤ k := by omega
      have hchild : sizeOf (childNodes n) ≤ k := by
        have := sizeOf_childNodes n
        omega
      have h1 := ih (childNodes n) hchild file (visit n file acc)
      have h2 := ih rest hrest file (traverseMany (childNodes n) file (visit n file acc))
      have hv := visit_spec n file acc
      constructor
      · rw [traverseMany_cons, h2.1, h1.1, hv.1, fnNodesMany_cons]
        simp
      · intro s
        rw [traverseMany_cons, h2.2 s, h1.2 s, hv.2 s, importTallyMany_cons]
        omega

theorem fnInfoOf_length (n : Node) :
    (fnInfoOf n).length = if isFunctionLike n then 1 else 0 := by
  cases n <;> simp [fnInfoOf, isFunctionLike]

theorem fnNodesMany_length (k : Nat) :
    ∀ (ns : List Node), sizeOf ns ≤ k →
      (fnNodesMany ns).length = countFunctionLikeMany ns := by
  induction k with
  | zero =>
    intro ns h
    exfalso
    cases ns <;> simp_all
  | succ k ih =>
    intro ns h
    cases ns with
    | nil => simp [fnNodesMany_nil, countFunctionLikeMany_nil]
    | cons n rest =>
      have hsz : 1 + sizeOf n + sizeOf rest ≤ k + 1 := by
        simpa using h
      have hrest : sizeOf rest ≤ k := by omega
      have hchild : sizeOf (childNodes n) ≤ k := by
        have := sizeOf_childNodes n
        omega
      rw [fnNodesMany_cons, countFunctionLikeMany_cons]
      simp [ih (childNodes n) hchild, ih rest hrest, fnInfoOf_length]
      omega

theorem analyzeFilesAux_append (xs ys : List (String × Except String Node))
    (acc : Facts) (ws : List (String × String)) :
    analyzeFilesAux (xs ++ ys) acc ws
      = analyzeFilesAux ys (analyzeFilesAux xs acc ws).fst (analyzeFilesAux xs acc ws).snd := by
  induction xs generalizing acc ws with
  | nil => simp [analyzeFilesAux]
  | cons p xs ih =>
    obtain ⟨file, pr⟩ := p
    cases pr <;> simp [analyzeFilesAux, ih]

theorem analyzeFilesAux_warns (xs : List (String × Except String Node))
    (acc : Facts) (ws : List (String × String)) :
    analyzeFilesAux xs acc ws
      = ((analyzeFilesAux xs acc []).fst, ws ++ (analyzeFilesAux xs acc []).snd) := by
  induction xs generalizing acc ws with
  | nil => simp [analyzeFilesAux]
  | cons p xs ih =>
    obtain ⟨file, pr⟩ := p
    cases pr with
    | ok ast =>
      simp only [analyzeFilesAux]
      exact ih (traverseAst ast file acc) ws
    | error msg =>
      simp only [analyzeFilesAux]
      rw [ih acc (ws ++ [(file, msg)]), ih acc ([] ++ [(file, msg)])]
      simp

/-- Claim C3: extraction adds 1 to the tally of a static import's
literal source string and 1 to the tally of the literal first-argument
string of a `require` call, so the per-specifier count over a parsed
tree is the sum of those contributions; on a file with static imports
of "./a" and "./b" plus a literal `require("./a")` the tally is exactly
`./a` twice and `./b` once, while a `require` call with a computed
(non-literal) first argument contributes nothing. -/
theorem import_tally_per_specifier :
    (∀ (ast : Node) (file s : String),
        getCount (extract ast file).imports s = importTallyMany s [ast])
    ∧ (extract exampleImportFile "f.js").imports = [("./a", 2), ("./b", 1)]
    ∧ (extract exampleComputedRequire "g.js").imports = [] := by
  refine ⟨fun ast file s => ?_, ?_, ?_⟩
  · have h := (traverseMany_spec (sizeOf [ast]) [ast] le_rfl file emptyFacts).2 s
    simpa [extract, traverseAst, emptyFacts, getCount] using h
  · simp [extract, traverseAst, exampleImportFile, traverseMany_cons, traverseMany_nil,
      childNodes, visit, calleeName, argLiteral, bump, emptyFacts]
  · simp [extract, traverseAst, exampleComputedRequire, traverseMany_cons, traverseMany_nil,
      childNodes, visit, calleeName, argLiteral, bump, emptyFacts]

/-- Claim C4: the walker emits exactly one function-size record per
function declaration, function expression or arrow-function expression
it reaches, so the record count of a parsed tree equals the total
number of reachable nodes of those three kinds. -/
theorem record_count_eq_function_nodes (ast : Node) (file : String) :
    ((extract ast file).functionSizes).length = countFunctionLike ast := by
  have h := (traverseMany_spec (sizeOf [ast]) [ast] le_rfl file emptyFacts).1
  have hlen := fnNodesMany_length (sizeOf [ast]) [ast] le_rfl
  simp [extract, traverseAst, emptyFacts] at h
  simp [extract, traverseAst, emptyFacts, h, countFunctionLike, hlen]

/-- Claim C5: a file whose parse throws contributes no function-size
records and no import-tally entries — the run's facts equal those of
the same run without that file — while the remaining files are still
processed and a warning carrying the file path and the parse error
message is recorded. -/
theorem parse_failure_skipped (pre post : List (String × Except String Node))
    (f msg : String) :
    (analyzeFiles (pre ++ (f, Except.error msg) :: post)).fst
        = (analyzeFiles (pre ++ post)).fst
    ∧ (f, msg) ∈ (analyzeFiles (pre ++ (f, Except.error msg) :: post)).snd := by
  constructor
  · rw [analyzeFiles, analyzeFiles, analyzeFilesAux_append, analyzeFilesAux_append]
    simp only [analyzeFilesAux]
    rw [analyzeFilesAux_warns post
          (analyzeFilesAux pre emptyFacts []).fst
          ((analyzeFilesAux pre emptyFacts []).snd ++ [(f, msg)]),
        analyzeFilesAux_warns post
          (analyzeFilesAux pre emptyFacts []).fst
          (analyzeFilesAux pre emptyFacts []).snd]
  · rw [analyzeFiles, analyzeFilesAux_append]
    simp only [analyzeFilesAux]
    rw [analyzeFilesAux_warns post
          (analyzeFilesAux pre emptyFacts []).fst
          ((analyzeFilesAux pre emptyFacts []).snd ++ [(f, msg)])]
    simp

/-- Claim C6: every emitted record's `size` equals the line number of
its node's closing position minus the line number of its opening
position, and a function confined to one line (equal opening and
closing lines) yields size 0. -/
theorem record_size_line_span (ast : Node) (file : String) (r : FunctionSizeRecord)
    (hr : r ∈ (extract ast file).functionSizes) :
    ∃ info ∈ fnNodesMany [ast],
      r.size = info.2.2 - info.2.1 ∧ (info.2.2 = info.2.1 → r.size = 0) := by
  have h := (traverseMany_spec (sizeOf [ast]) [ast] le_rfl file emptyFacts).1
  simp only [extract, traverseAst] at hr
  rw [h] at hr
  simp only [emptyFacts, List.nil_append] at hr
  obtain ⟨info, hmem, hrec⟩ := List.mem_map.mp hr
  refine ⟨info, hmem, ?_, ?_⟩
  · rw [← hrec]
    rfl
  · intro h0
    rw [← hrec]
    simp [recordOf, h0]

/-- Witness for `record_size_line_span`: a function declaration opening
and closing on line 3 produces the record `f` with size 0. -/
theorem record_size_line_span_witness :
    ∃ info ∈ fnNodesMany [Node.functionDeclaration (some "f") 3 3 []],
      (⟨"f", 0, "a.js"⟩ : FunctionSizeRecord).size = info.2.2 - info.2.1
      ∧ (info.2.2 = info.2.1 → (⟨"f", 0, "a.js"⟩ : FunctionSizeRecord).size = 0) :=
  record_size_line_span (Node.functionDeclaration (some "f") 3 3 []) "a.js" ⟨"f", 0, "a.js"⟩
    (by simp [extract, traverseAst, traverseMany_cons, traverseMany_nil, childNodes,
          visit, emptyFacts, idName])

/-- Claim C7: every emitted record is named by its node's declared
identifier when one is present and by the anonymous marker otherwise;
in particular, the tree of `const foo = () => ...` yields the single
record `(anonymous)` — the variable's name `foo` is never attributed to
the anonymous arrow function. -/
theorem record_name_from_id :
    (∀ (ast : Node) (file : String) (r : FunctionSizeRecord),
        r ∈ (extract ast file).functionSizes →
          ∃ info ∈ fnNodesMany [ast], r.name = idName info.1)
    ∧ (extract exampleVarArrow "f.js").functionSizes
        = [{ name := "(anonymous)", size := 2, file := "f.js" }] := by
  constructor
  · intro ast file r hr
    have h := (traverseMany_spec (sizeOf [ast]) [ast] le_rfl file emptyFacts).1
    simp only [extract, traverseAst] at hr
    rw [h] at hr
    simp only [emptyFacts, List.nil_append] at hr
    obtain ⟨info, hmem, hrec⟩ := List.mem_map.mp hr
    exact ⟨info, hmem, by rw [← hrec]; rfl⟩
  · simp [extract, traverseAst, exampleVarArrow, traverseMany_cons, traverseMany_nil,
      childNodes, visit, emptyFacts, idName]

/-- Witness for `record_name_from_id`: the anonymous-arrow record of
the `const foo = () => ...` tree takes its name from an identifier-free
function node. -/
theorem record_name_from_id_witness :
    ∃ info ∈ fnNodesMany [exampleVarArrow],
      ({ name := "(anonymous)", size := 2, file := "f.js" } : FunctionSizeRecord).name
        = idName info.1 :=
  record_name_from_id.1 exampleVarArrow "f.js"
    { name := "(anonymous)", size := 2, file := "f.js" }
    (by simp [extract, traverseAst, exampleVarArrow, traverseMany_cons, traverseMany_nil,
          childNodes, visit, emptyFacts, idName])

/-- Claim C1 (code bug): on the spec's example — edge map `A:[B], B:[]`
with inventory `[A, B, C]` — the source's `detectUnusedFiles` filters
the inventory against the KEY set of the madge dependency object
(despite naming that set `importedFiles`) and returns `[C]`, whereas
the documented set-difference against the union of the value-side
target sets returns `[A, C]`; the two disagree. -/
theorem detectUnusedFiles_filters_by_keys :
    detectUnusedFiles unusedExampleDeps ["A", "B", "C"] = ["C"]
    ∧ unusedFilesSpec unusedExampleDeps ["A", "B", "C"] = ["A", "C"]
    ∧ detectUnusedFiles unusedExampleDeps ["A", "B", "C"]
        ≠ unusedFilesSpec unusedExampleDeps ["A", "B", "C"] := by
  refine ⟨by decide, by decide, by decide⟩

/-- Claim C2, counterexample: when the module resolver fails, the run
does report empty cycle and unused-file results, but it surfaces TWO
user-visible error messages — one from the catch block of
`checkCircularDependencies` and one from the catch block of
`detectUnusedFiles`, each of which awaits its own `madge` call — not a
single warning. -/
theorem resolver_failure_not_single_message :
    (runPipeline [] (Except.error "invalid project root") ["a.js"]).cycles = []
    ∧ (runPipeline [] (Except.error "invalid project root") ["a.js"]).unused = []
    ∧ (runPipeline [] (Except.error "invalid project root") ["a.js"]).graphErrorMessages = 2
    ∧ ¬ (runPipeline [] (Except.error "invalid project root") ["a.js"]).graphErrorMessages = 1 := by
  refine ⟨by decide, by decide, by decide, by decide⟩

/-- Claim C2 as amended: for every run in which the module resolver
fails, cycle detection and unused-file detection both report an empty
result, the failure is surfaced as one user-visible error message from
each of the two graph diagnostics (two messages per run), and the
run's function-size and import results are exactly those of
`analyzeFiles`, untouched by the failure (the failure is non-fatal). -/
theorem resolver_failure_semantics (files : List (String × Except String Node))
    (msg : String) (inventory : List String) :
    (runPipeline files (Except.error msg) inventory).cycles = []
    ∧ (runPipeline files (Except.error msg) inventory).unused = []
    ∧ (runPipeline files (Except.error msg) inventory).graphErrorMessages = 2
    ∧ (runPipeline files (Except.error msg) inventory).functionSizes
        = (analyzeFiles files).fst.functionSizes
    ∧ (runPipeline files (Except.error msg) inventory).imports
        = (analyzeFiles files).fst.imports := by
  simp [runPipeline, checkCircularDependencies, detectUnusedFilesRun]

/-- Claim C8: on the edge map `A:[B], B:[C], C:[A]` cycle detection
reports exactly the cycle A → B → C → A and nothing else; `findCycles`
is a pure function of the edge map (keys traversed in stored order), so
the enumeration order is the same on every run over the same input. -/
theorem findCycles_triangle :
    findCycles triangleEdgeMap = [["A", "B", "C", "A"]] := by
  decide

/-- Claim C9: a record is reported as a large function precisely when
its size exceeds the hardcoded 50-line cutoff — membership in the
filter's output is equivalent to membership in the input together with
`size > 50`, so a size of exactly 50 is not reported. -/
theorem large_function_iff (fns : List FunctionSizeRecord) (r : FunctionSizeRecord) :
    r ∈ largeFunctions fns ↔ r ∈ fns ∧ 50 < r.size := by
  simp [largeFunctions, List.mem_filter]

theorem splitNL_length (cs : List Char) :
    (splitNL cs).length = cs.count '\n' + 1 := by
  induction cs with
  | nil => simp [splitNL]
  | cons c cs ih =>
    by_cases h : c = '\n'
    · simp [splitNL, h, List.count_cons, ih]
    · cases hs : splitNL cs with
      | nil => rw [hs] at ih; simp at ih
      | cons p ps =>
        rw [hs] at ih
        simp [splitNL, h, hs, List.count_cons] at ih ⊢
        omega

/-- Claim C10: `countLines` returns 0 when reading the file throws, and
otherwise one more than the number of newline characters in the file's
text; in particular a readable empty file is reported as 1 line. -/
theorem countLines_newline_count :
    (∀ msg : String, countLines (Except.error msg) = 0)
    ∧ (∀ content : List Char, countLines (Except.ok content) = content.count '\n' + 1)
    ∧ countLines (Except.ok []) = 1 := by
  refine ⟨fun msg => rfl, fun content => ?_, rfl⟩
  simp [countLines, splitNL_length]


end CodeTracer
